import Mathlib

set_option maxHeartbeats 1000000

/-! Verification of decomp-permuter's `import.py`: build-command resolution
    (`find_makefile_dir`, `fixup_build_command`, `find_build_command_line`),
    assembly extraction (`parse_asm`), and the macro-preserving preprocessing
    pipeline (`preprocess_c_with_macros`, `import_c_file`).

    Python strings are modelled as Lean `String`s (with the core scanning
    routines written over `List Char`); external tools (make's trace output,
    the two preprocessor passes, the filesystem) are modelled as explicit
    parameters holding their outputs. -/

/-- Decidable equality for `Except`, used to evaluate the model on concrete inputs. -/
instance {ε α : Type} [DecidableEq ε] [DecidableEq α] : DecidableEq (Except ε α) := fun a b =>
  match a, b with
  | .ok x, .ok y => decidable_of_iff (x = y) (by simp)
  | .error e, .error f => decidable_of_iff (e = f) (by simp)
  | .ok _, .error _ => isFalse (by simp)
  | .error _, .ok _ => isFalse (by simp)

/-- Single-quote character (spelled via its code point). -/
def chQuoteS : Char := Char.ofNat 39

/-- Double-quote character. -/
def chQuoteD : Char := Char.ofNat 34

/-- Backslash character. -/
def chBackslash : Char := Char.ofNat 92

/-- The whitespace characters recognised by Python's argument-less `str.split`
    and `str.strip`: space, tab, newline, carriage return, vertical tab, form feed. -/
def pyIsSpace (c : Char) : Bool :=
  c = ' ' || c = '\t' || c = '\n' || c = '\r' || c = Char.ofNat 11 || c = Char.ofNat 12

/-- Characters of the `[a-zA-Z0-9_]` character class used by import.py's regexes. -/
def identChar (c : Char) : Bool :=
  c.isAlphanum || c = '_'

/-- Helper for whitespace splitting: walks the characters keeping the current
    (reversed) token. Mirrors how `str.split()` discards empty fields. -/
def splitWsAux : List Char → List Char → List (List Char)
  | [], cur => if cur.isEmpty then [] else [cur.reverse]
  | c :: cs, cur =>
    if pyIsSpace c then
      if cur.isEmpty then splitWsAux cs [] else cur.reverse :: splitWsAux cs []
    else splitWsAux cs (c :: cur)

/-- `str.split()` with no argument: split on whitespace runs, dropping empties. -/
def splitWsL (l : List Char) : List (List Char) := splitWsAux l []

/-- `line.split()` on Lean strings. -/
def pySplitWs (s : String) : List String := (splitWsL s.data).map String.mk

/-- `str.strip()`: drop whitespace from both ends. -/
def stripL (l : List Char) : List Char :=
  ((l.dropWhile pyIsSpace).reverse.dropWhile pyIsSpace).reverse

/-- `line.strip()` on Lean strings. -/
def pyStrip (s : String) : String := String.mk (stripL s.data)

/-- `s.startswith(pre)`. -/
def strStartsWith (s pre : String) : Bool := pre.data.isPrefixOf s.data

/-- Substring containment, Python's `pat in s`. -/
def infixOfL (pat l : List Char) : Bool := l.tails.any (fun t => pat.isPrefixOf t)

/-- `pat in s` on Lean strings. -/
def strContainsSub (s pat : String) : Bool := infixOfL pat.data s.data

/-- Body of `s.replace(pat, rep)`: replace every leftmost non-overlapping
    occurrence.  The fuel is started at the string's length, which always
    suffices because each step consumes at least one character (the guard
    `!pat.isEmpty` matters only for that argument; import.py never replaces
    an empty pattern). -/
def replaceLAux (pat rep : List Char) : Nat → List Char → List Char
  | 0, l => l
  | _ + 1, [] => []
  | f + 1, c :: cs =>
    if !pat.isEmpty && pat.isPrefixOf (c :: cs) then
      rep ++ replaceLAux pat rep f ((c :: cs).drop pat.length)
    else
      c :: replaceLAux pat rep f cs

/-- `s.replace(pat, rep)` on character lists. -/
def replaceL (pat rep l : List Char) : List Char := replaceLAux pat rep l.length l

/-- One of import.py's normalisation loops: `while pat in line: line = line.replace(pat, rep)`.
    Each replacement of a longer pattern by a shorter one strictly shrinks the
    string, so fuel `length + 1` always suffices. -/
def collapseLoopL (pat rep : List Char) : Nat → List Char → List Char
  | 0, l => l
  | f + 1, l => if infixOfL pat l then collapseLoopL pat rep f (replaceL pat rep l) else l

/-- Lines 155-158 of import.py: collapse `//` and then `/./` path artifacts. -/
def normalizeLine (s : String) : String :=
  let d1 := collapseLoopL "//".data "/".data (s.data.length + 1) s.data
  let d2 := collapseLoopL "/./".data "/".data (d1.length + 1) d1
  String.mk d2

/-- Lexer states of Python's `shlex` in POSIX mode with `whitespace_split`:
    between tokens, inside a token, inside single/double quotes, after a
    backslash outside quotes, after a backslash inside double quotes. -/
inductive ShState
  | sWs
  | sWord
  | sSingle
  | sDouble
  | sEsc
  | sEscD
deriving DecidableEq

/-- Whitespace characters of `shlex` (`shlex.whitespace = " \t\r\n"`). -/
def shlexWs (c : Char) : Bool := c = ' ' || c = '\t' || c = '\r' || c = '\n'

/-- Core of `shlex.split(line)` (POSIX rules, `whitespace_split=True`):
    returns `none` where Python raises `ValueError` (unterminated quote or
    escape).  `cur` holds the pending token's characters in reverse. -/
def shlexAux : List Char → ShState → List Char → Option (List String)
  | [], .sWs, _ => some []
  | [], .sWord, cur => some [String.mk cur.reverse]
  | [], .sSingle, _ => none
  | [], .sDouble, _ => none
  | [], .sEsc, _ => none
  | [], .sEscD, _ => none
  | c :: cs, .sWs, _ =>
    if shlexWs c then shlexAux cs .sWs []
    else if c = chQuoteS then shlexAux cs .sSingle []
    else if c = chQuoteD then shlexAux cs .sDouble []
    else if c = chBackslash then shlexAux cs .sEsc []
    else shlexAux cs .sWord [c]
  | c :: cs, .sWord, cur =>
    if shlexWs c then (shlexAux cs .sWs []).map (String.mk cur.reverse :: ·)
    else if c = chQuoteS then shlexAux cs .sSingle cur
    else if c = chQuoteD then shlexAux cs .sDouble cur
    else if c = chBackslash then shlexAux cs .sEsc cur
    else shlexAux cs .sWord (c :: cur)
  | c :: cs, .sSingle, cur =>
    if c = chQuoteS then shlexAux cs .sWord cur else shlexAux cs .sSingle (c :: cur)
  | c :: cs, .sDouble, cur =>
    if c = chQuoteD then shlexAux cs .sWord cur
    else if c = chBackslash then shlexAux cs .sEscD cur
    else shlexAux cs .sDouble (c :: cur)
  | c :: cs, .sEsc, cur => shlexAux cs .sWord (c :: cur)
  | c :: cs, .sEscD, cur =>
    if c = chQuoteD || c = chBackslash then shlexAux cs .sDouble (c :: cur)
    else shlexAux cs .sDouble (c :: chBackslash :: cur)

/-- `shlex.split(s)`. -/
def shlex_split (s : String) : Option (List String) := shlexAux s.data .sWs []

/-- The character class Python's `shlex.quote` considers safe: word characters
    plus at-sign, percent, plus, equals, colon, comma, dot, slash, dash. -/
def shQuoteSafe (c : Char) : Bool :=
  identChar c || c = '@' || c = '%' || c = '+' || c = '=' || c = ':' || c = ',' ||
  c = '.' || c = '/' || c = '-'

/-- `shlex.quote(s)`. -/
def shlex_quote (s : String) : String :=
  if s = "" then String.mk [chQuoteS, chQuoteS]
  else if s.data.all shQuoteSafe then s
  else
    String.mk ([chQuoteS] ++
      (s.data.flatMap (fun c =>
        if c = chQuoteS then
          [chQuoteS, chQuoteD, chQuoteS, chQuoteD, chQuoteS]
        else [c])) ++ [chQuoteS])

/-- `formatcmd(cmdline)` (import.py line 37). -/
def formatcmd (cmdline : List String) : String :=
  String.intercalate " " (cmdline.map shlex_quote)

/-- `DEFAULT_AS_CMDLINE` (import.py line 26). -/
def DEFAULT_AS_CMDLINE : List String := ["mips-linux-gnu-as", "-march=vr4300", "-mabi=32"]

/-- `CPP` (import.py line 28). -/
def CPP : List String := ["cpp", "-P", "-undef"]

/-- `STUB_FN_MACROS` (import.py lines 30-34). -/
def STUB_FN_MACROS : List String :=
  ["-D_Static_assert(x, y)=", "-D__attribute__(x)=", "-DGLOBAL_ASM(...)="]

/-- The flag/value stripping loop of `fixup_build_command` (import.py lines
    110-122): a left-to-right scan where `-MF` and `-o` consume the next token
    and every token equal to `ignore_part` is dropped.  `skip` is the running
    `skip_count` (always 0 or 1 in practice). -/
def stripFlagsAux (ignore : String) : List String → Nat → List String
  | [], _ => []
  | _ :: ps, skip + 1 => stripFlagsAux ignore ps skip
  | p :: ps, 0 =>
    if p = "-MF" || p = "-o" then stripFlagsAux ignore ps 1
    else if p = ignore then stripFlagsAux ignore ps 0
    else p :: stripFlagsAux ignore ps 0

/-- A token "referencing the assembler-substitution wrapper": any of the three
    substrings tested on import.py line 130. -/
def wrapperTok (arg : String) : Bool :=
  strContainsSub arg "asm_processor" || strContainsSub arg "asm-processor" ||
  strContainsSub arg "preprocess.py"

/-- `res.index(x, start)` as an `Option` (Python raises `ValueError` when absent). -/
def idxOfFrom (x : String) (l : List String) (start : Nat) : Option Nat :=
  ((l.drop start).findIdx? (· = x)).map (· + start)

/-- The wrapper-unwrapping step of `fixup_build_command` (import.py lines
    124-138): locate the first wrapper-referencing token, the two following
    `--` separators, and slice.  Any lookup failing corresponds to Python's
    caught `ValueError`, leaving the list unchanged. -/
def fixup_unwrap (res : List String) : List String × Option (List String) :=
  match res.findIdx? wrapperTok with
  | none => (res, none)
  | some i0 =>
    match idxOfFrom "--" res (i0 + 1) with
    | none => (res, none)
    | some i1 =>
      match idxOfFrom "--" res (i1 + 1) with
      | none => (res, none)
      | some i2 =>
        ((res.drop (i0 + 1)).take (i1 - (i0 + 1)) ++ res.drop (i2 + 1),
         some ((res.drop (i1 + 1)).take (i2 - (i1 + 1))))

/-- `fixup_build_command(parts, ignore_part)` (import.py lines 109-140). -/
def fixup_build_command (parts : List String) (ignore_part : String) :
    List String × Option (List String) :=
  fixup_unwrap (stripFlagsAux ignore_part parts 0)

/-- `if asmproc_assembler: assembler = asmproc_assembler` (import.py lines
    170-171): only a non-empty recovered assembler replaces the current one
    (Python truthiness makes both `None` and `[]` keep the previous value). -/
def chooseAsm (prev : List String) (rec : Option (List String)) : List String :=
  match rec with
  | some (x :: xs) => x :: xs
  | _ => prev

/-- Fatal outcomes of `find_build_command_line`. -/
inductive ResolveErr
  /-- Zero candidates: the "Failed to find compile command" diagnostic,
      `sys.exit(1)` (import.py lines 174-187). -/
  | notFound
  /-- Two or more candidates: line 190 evaluates `"\n".join(output)` where
      `output` is a list of token *lists*, so Python raises `TypeError`
      before the "found multiple compile commands" diagnostic is printed. -/
  | joinTypeError
  /-- `shlex.split` raising `ValueError` (unbalanced quoting) propagates. -/
  | shlexValueError
deriving DecidableEq

/-- The per-line loop of `find_build_command_line` (import.py lines 154-172).
    State: collected candidate token lists, the current assembler, `close_match`. -/
def resolveLoop (rel : String) :
    List String → List (List String) × List String × Bool →
    Except ResolveErr (List (List String) × List String × Bool)
  | [], st => .ok st
  | line :: restLines, (out, asm, close) =>
    let nline := normalizeLine line
    if strContainsSub nline rel = false then resolveLoop rel restLines (out, asm, close)
    else
      match shlex_split nline with
      | none => .error .shlexValueError
      | some parts =>
        if ¬ parts.contains rel then resolveLoop rel restLines (out, asm, true)
        else if ¬ parts.contains "-o" then resolveLoop rel restLines (out, asm, true)
        else if parts.contains "-fsyntax-only" then resolveLoop rel restLines (out, asm, true)
        else
          let fixed := fixup_build_command parts rel
          resolveLoop rel restLines (out ++ [fixed.1], chooseAsm asm fixed.2, true)

/-- `find_build_command_line` (import.py lines 143-199), taking the build
    trace (`debug_output`) and the manifest-relative source path as inputs.
    Exactly one surviving candidate yields its tokens and the recovered-or-
    default assembler; zero is the fatal "not found" path; two or more reach
    the `TypeError` at line 190. -/
def find_build_command_line (debug_output : List String) (rel_c_file : String) :
    Except ResolveErr (List String × List String) :=
  match resolveLoop rel_c_file debug_output ([], DEFAULT_AS_CMDLINE, false) with
  | .error e => .error e
  | .ok ([], _, _) => .error .notFound
  | .ok ([c], asm, _) => .ok (c, asm)
  | .ok (_ :: _ :: _, _, _) => .error .joinTypeError

/-- A directory "contains a build manifest": `makefile` or `Makefile` exists
    there (import.py lines 99-101).  `isfile d f` models `os.path.isfile(d/f)`;
    directories are absolute paths as component lists (root = `[]`). -/
def hasManifest (isfile : List String → String → Bool) (d : List String) : Bool :=
  isfile d "makefile" || isfile d "Makefile"

/-- The ascent loop of `find_makefile_dir` (import.py lines 98-103): check the
    current directory, then its parent (`os.path.dirname` is `dropLast` on
    component lists), and so on.  The fuel counts the remaining ascents; it is
    always started at the directory's depth, so fuel 0 means the root has been
    reached, which the Python loop checks once before its `len`-guard stops. -/
def searchUpAux (isfile : List String → String → Bool) : List String → Nat → Option (List String)
  | d, 0 => if hasManifest isfile d then some d else none
  | d, f + 1 =>
    if hasManifest isfile d then some d else searchUpAux isfile d.dropLast f

/-- Ascend from directory `d` toward the root, returning the first directory
    holding a build manifest. -/
def searchUp (isfile : List String → String → Bool) (d : List String) : Option (List String) :=
  searchUpAux isfile d d.length

/-- `find_makefile_dir(filename)` (import.py lines 95-106): starts the ascent
    at `os.path.dirname(filename)`; `none` is the fatal "Missing makefile" exit. -/
def find_makefile_dir (isfile : List String → String → Bool) (filename : List String) :
    Option (List String) :=
  searchUp isfile filename.dropLast

/-- Build-manifest resolution as performed by `find_build_command_line`
    (import.py line 144): it passes `os.path.dirname(c_file)` — already a
    directory — into `find_makefile_dir`, which applies `dirname` again. -/
def resolve_makefile_dir (isfile : List String → String → Bool) (c_file : List String) :
    Option (List String) :=
  find_makefile_dir isfile c_file.dropLast

/-- A concrete finite filesystem: the listed (directory, filename) pairs exist. -/
def mkIsFile (entries : List (List String × String)) (d : List String) (f : String) : Bool :=
  entries.contains (d, f)

/-- `write_compile_command` (import.py lines 327-334): the text written to
    `compile.sh`.  The final line replays the compiler invocation and
    regenerates the output flag. -/
def write_compile_command_content (compiler : List String) (cwd : String) : String :=
  ("#!/usr/bin/env bash\nINPUT=\"$(readlink -f \"$1\")\"\nOUTPUT=\"$(readlink -f \"$3\")\"\ncd "
      ++ shlex_quote cwd ++ "\n" ++ formatcmd compiler)
    ++ " \"$INPUT\" -o \"$OUTPUT\"\n"

/-! Helper lemmas about the flag-stripping scan and the unwrap slicing. -/

theorem stripFlagsAux_id (ignore : String) (l : List String)
    (h : ∀ t ∈ l, t ≠ "-o" ∧ t ≠ "-MF" ∧ t ≠ ignore) :
    stripFlagsAux ignore l 0 = l := by
  induction l with
  | nil => rfl
  | cons p ps ih =>
    have hp := h p (by simp)
    have hps : ∀ t ∈ ps, t ≠ "-o" ∧ t ≠ "-MF" ∧ t ≠ ignore := fun t ht => h t (by simp [ht])
    simp only [stripFlagsAux]
    rw [if_neg (by simp [hp.1, hp.2.1]), if_neg (by simp [hp.2.2]), ih hps]

theorem mem_stripFlagsAux (ignore : String) :
    ∀ (l : List String) (k : Nat) (x : String), x ∈ stripFlagsAux ignore l k →
      x ≠ "-o" ∧ x ≠ "-MF" ∧ x ≠ ignore := by
  intro l
  induction l with
  | nil => intro k x hx; simp [stripFlagsAux] at hx
  | cons p ps ih =>
    intro k x hx
    match k with
    | k + 1 => exact ih k x hx
    | 0 =>
      simp only [stripFlagsAux] at hx
      by_cases h1 : (p = "-MF" || p = "-o") = true
      · rw [if_pos h1] at hx; exact ih 1 x hx
      · rw [if_neg h1] at hx
        by_cases h2 : p = ignore
        · rw [if_pos h2] at hx; exact ih 0 x hx
        · rw [if_neg h2] at hx
          rcases List.mem_cons.mp hx with rfl | hx'
          · simp only [Bool.or_eq_true, decide_eq_true_eq] at h1
            push_neg at h1
            exact ⟨h1.2, h1.1, h2⟩
          · exact ih 0 x hx'

theorem fixup_unwrap_fst_subset (res : List String) :
    ∀ x ∈ (fixup_unwrap res).1, x ∈ res := by
  intro x hx
  unfold fixup_unwrap at hx
  repeat' split at hx
  any_goals exact hx
  rcases List.mem_append.mp hx with h | h
  · exact List.drop_subset _ _ (List.take_subset _ _ h)
  · exact List.drop_subset _ _ h

theorem fixup_unwrap_snd_subset (res : List String) :
    ∀ a, (fixup_unwrap res).2 = some a → ∀ x ∈ a, x ∈ res := by
  intro a ha x hx
  unfold fixup_unwrap at ha
  repeat' split at ha
  any_goals simp at ha
  subst ha
  exact List.drop_subset _ _ (List.take_subset _ _ hx)

theorem fixup_inv (parts : List String) (ignore : String) :
    "-o" ∉ (fixup_build_command parts ignore).1 ∧
    "-MF" ∉ (fixup_build_command parts ignore).1 ∧
    ignore ∉ (fixup_build_command parts ignore).1 := by
  refine ⟨fun h => ?_, fun h => ?_, fun h => ?_⟩
  · exact ((mem_stripFlagsAux ignore parts 0 _ (fixup_unwrap_fst_subset _ _ h)).1 rfl)
  · exact ((mem_stripFlagsAux ignore parts 0 _ (fixup_unwrap_fst_subset _ _ h)).2.1 rfl)
  · exact ((mem_stripFlagsAux ignore parts 0 _ (fixup_unwrap_fst_subset _ _ h)).2.2 rfl)

theorem resolveLoop_inv (rel : String) :
    ∀ (lines : List String) (out : List (List String)) (asm : List String) (close : Bool)
      (res : List (List String) × List String × Bool),
      resolveLoop rel lines (out, asm, close) = .ok res →
      (∀ c ∈ out, "-o" ∉ c ∧ "-MF" ∉ c ∧ rel ∉ c) →
      ∀ c ∈ res.1, "-o" ∉ c ∧ "-MF" ∉ c ∧ rel ∉ c := by
  intro lines
  induction lines with
  | nil =>
    intro out asm close res hres hout
    simp only [resolveLoop] at hres
    cases hres
    exact hout
  | cons line rest ih =>
    intro out asm close res hres hout
    simp only [resolveLoop] at hres
    split at hres
    · exact ih out asm close res hres hout
    · split at hres
      · cases hres
      · split at hres
        · exact ih out asm true res hres hout
        · split at hres
          · exact ih out asm true res hres hout
          · split at hres
            · exact ih out asm true res hres hout
            · refine ih _ _ true res hres ?_
              intro c hc
              rcases List.mem_append.mp hc with h | h
              · exact hout c h
              · rcases List.mem_singleton.mp h with rfl
                exact fixup_inv _ rel

theorem findIdx?_append_cons {α : Type} (p : α → Bool) (pre : List α) (w : α) (rest : List α)
    (hpre : ∀ t ∈ pre, p t = false) (hw : p w = true) :
    ∀ i, (pre ++ w :: rest).findIdx? p i = some (pre.length + i) := by
  induction pre with
  | nil => intro i; simp [List.findIdx?_cons, hw]
  | cons a l ih =>
    intro i
    have ha := hpre a (by simp)
    simp only [List.cons_append, List.findIdx?_cons, ha, Bool.false_eq_true, if_false]
    rw [ih (fun t ht => hpre t (by simp [ht])) (i + 1)]
    congr 1
    simp only [List.length_cons]
    omega

theorem drop_pre_append {α : Type} (A B : List α) (n : Nat) (h : A.length = n) :
    (A ++ B).drop n = B := by
  subst h; exact List.drop_left A B

/-- C1 (counterexample): for candidate tokens `A B <wrapper> C -- D E -- F G`
    (wrapper at index 2, `ignore_part` not occurring), `fixup_build_command`
    does NOT return compiler tokens `A B F G`: it returns `C F G` — the tokens
    between the wrapper and the first separator plus the tokens after the
    second separator — together with assembler tokens `D E`. -/
theorem C1_counterexample :
    fixup_build_command ["A", "B", "tools/asm_processor.py", "C", "--", "D", "E", "--", "F", "G"]
        "zz" ≠ (["A", "B", "F", "G"], some ["D", "E"]) ∧
    fixup_build_command ["A", "B", "tools/asm_processor.py", "C", "--", "D", "E", "--", "F", "G"]
        "zz" = (["C", "F", "G"], some ["D", "E"]) := by
  exact ⟨by decide, by decide⟩

/-- C1 (amended): for every candidate token list of the shape
    `pre ++ [w] ++ mid ++ ["--"] ++ asmseg ++ ["--"] ++ post` where `w` is the
    first wrapper-referencing token, no `--` occurs inside `mid` or `asmseg`,
    and no token is an output/dependency flag or the ignored source path,
    `fixup_build_command` returns the tokens BETWEEN the wrapper and the first
    separator plus the tokens after the second separator (`mid ++ post`) as
    the compiler invocation, and the tokens between the separators (`asmseg`)
    as the assembler invocation. -/
theorem C1_amended (pre mid asmseg post : List String) (w ignore : String)
    (hw : wrapperTok w = true)
    (hpre : ∀ t ∈ pre, wrapperTok t = false)
    (hmid : "--" ∉ mid) (hasm : "--" ∉ asmseg)
    (hclean : ∀ t ∈ pre ++ w :: (mid ++ "--" :: (asmseg ++ "--" :: post)),
        t ≠ "-o" ∧ t ≠ "-MF" ∧ t ≠ ignore) :
    fixup_build_command (pre ++ w :: (mid ++ "--" :: (asmseg ++ "--" :: post))) ignore
      = (mid ++ post, some asmseg) := by
  unfold fixup_build_command
  rw [stripFlagsAux_id _ _ hclean]
  set L := pre ++ w :: (mid ++ "--" :: (asmseg ++ "--" :: post)) with hL
  have hd1 : L.drop (pre.length + 1) = mid ++ "--" :: (asmseg ++ "--" :: post) := by
    rw [hL, show pre ++ w :: (mid ++ "--" :: (asmseg ++ "--" :: post))
        = (pre ++ [w]) ++ (mid ++ "--" :: (asmseg ++ "--" :: post)) by simp]
    exact drop_pre_append _ _ _ (by simp)
  have hd2 : L.drop (pre.length + 1 + mid.length + 1) = asmseg ++ "--" :: post := by
    rw [hL, show pre ++ w :: (mid ++ "--" :: (asmseg ++ "--" :: post))
        = (pre ++ [w] ++ mid ++ ["--"]) ++ (asmseg ++ "--" :: post) by simp]
    exact drop_pre_append _ _ _
      (by simp only [List.length_append, List.length_cons, List.length_nil])
  have hd3 : L.drop (pre.length + 1 + mid.length + 1 + asmseg.length + 1) = post := by
    rw [hL, show pre ++ w :: (mid ++ "--" :: (asmseg ++ "--" :: post))
        = (pre ++ [w] ++ mid ++ ["--"] ++ asmseg ++ ["--"]) ++ post by simp]
    exact drop_pre_append _ _ _
      (by simp only [List.length_append, List.length_cons, List.length_nil])
  have e0 : L.findIdx? wrapperTok = some pre.length := by
    rw [hL]
    have h := findIdx?_append_cons wrapperTok pre w
      (mid ++ "--" :: (asmseg ++ "--" :: post)) hpre hw 0
    rw [Nat.add_zero] at h
    exact h
  have hfm : ∀ t ∈ mid, (fun x => decide (x = "--")) t = false := by
    intro t ht
    simp only [decide_eq_false_iff_not]
    exact fun h => hmid (h ▸ ht)
  have hfa : ∀ t ∈ asmseg, (fun x => decide (x = "--")) t = false := by
    intro t ht
    simp only [decide_eq_false_iff_not]
    exact fun h => hasm (h ▸ ht)
  have e1 : idxOfFrom "--" L (pre.length + 1) = some (pre.length + 1 + mid.length) := by
    unfold idxOfFrom
    rw [hd1, findIdx?_append_cons (fun x => decide (x = "--")) mid "--"
      (asmseg ++ "--" :: post) hfm (by simp) 0]
    simp only [Option.map_some', Option.some.injEq]
    omega
  have e2 : idxOfFrom "--" L (pre.length + 1 + mid.length + 1)
      = some (pre.length + 1 + mid.length + 1 + asmseg.length) := by
    unfold idxOfFrom
    rw [hd2, findIdx?_append_cons (fun x => decide (x = "--")) asmseg "--"
      post hfa (by simp) 0]
    simp only [Option.map_some', Option.some.injEq]
    omega
  unfold fixup_unwrap
  simp only [e0, e1, e2]
  rw [show pre.length + 1 + mid.length - (pre.length + 1) = mid.length by omega]
  rw [show pre.length + 1 + mid.length + 1 + asmseg.length - (pre.length + 1 + mid.length + 1)
      = asmseg.length by omega]
  rw [hd1, hd2, hd3]
  simp [List.take_left]

/-- C1 (witness): the amended theorem applied at the concrete `A B <wrapper>
    C -- D E -- F G` candidate. -/
theorem C1_amended_witness :
    fixup_build_command ["A", "B", "tools/asm_processor.py", "C", "--", "D", "E", "--", "F", "G"]
        "zz" = (["C", "F", "G"], some ["D", "E"]) := by
  have h := C1_amended ["A", "B"] ["C"] ["D", "E"] ["F", "G"] "tools/asm_processor.py" "zz"
    (by decide) (by decide) (by decide) (by decide) (by decide)
  simpa using h

/-- C2 (code bug): with a manifest in the source file's own directory
    `/proj/src` (and nowhere above), resolution fails fatally instead of
    returning `/proj/src`: `find_build_command_line` passes
    `os.path.dirname(c_file)` into `find_makefile_dir`, which applies
    `os.path.dirname` again, so the ascent starts at `/proj` and the source
    file's own directory is never examined. -/
theorem C2_code_bug :
    resolve_makefile_dir (mkIsFile [(["proj", "src"], "makefile")]) ["proj", "src", "foo.c"]
        = none ∧
    hasManifest (mkIsFile [(["proj", "src"], "makefile")]) (["proj", "src", "foo.c"].dropLast)
        = true ∧
    find_makefile_dir (mkIsFile [(["proj", "src"], "makefile")]) ["proj", "src", "foo.c"]
        = some ["proj", "src"] := by
  exact ⟨by decide, by decide, by decide⟩

/-- C3 (code bug): with exactly one matching, output-flagged, non-syntax-check
    line the resolver returns that line's tokens minus the output/dependency
    flag-value pairs; with zero such lines it fails with the "not found"
    diagnostic; but with two such lines it crashes with a `TypeError` —
    import.py line 190 evaluates `"\n".join(output)` on a list of token
    *lists* — before the "ambiguous" diagnostic can be printed. -/
theorem C3_code_bug :
    find_build_command_line ["cc src/foo.c -o a.o", "cc src/foo.c -o b.o"] "src/foo.c"
        = .error .joinTypeError ∧
    find_build_command_line ["echo src/foo.c"] "src/foo.c" = .error .notFound ∧
    find_build_command_line ["cc src/foo.c -o a.o"] "src/foo.c"
        = .ok (["cc"], DEFAULT_AS_CMDLINE) := by
  exact ⟨by decide, by decide, by decide⟩

/-- The property asserted by claim C4, as a predicate on the tokenized input
    line (`parts`), the returned compiler tokens (`out`) and the
    manifest-relative source path (`rel`): no output/dependency flag, no token
    that immediately followed such a flag in the input, and no source-path
    token survives. -/
def c4Claim (parts out : List String) (rel : String) : Prop :=
  "-o" ∉ out ∧ "-MF" ∉ out ∧ rel ∉ out ∧
  ∀ i, i + 1 < parts.length →
    (parts.getD i "" = "-o" ∨ parts.getD i "" = "-MF") → parts.getD (i + 1) "" ∉ out

instance (parts out : List String) (rel : String) : Decidable (c4Claim parts out rel) := by
  unfold c4Claim
  have : Decidable (∀ i, i + 1 < parts.length →
      (parts.getD i "" = "-o" ∨ parts.getD i "" = "-MF") → parts.getD (i + 1) "" ∉ out) := by
    refine decidable_of_iff
      (∀ i, i < parts.length → i + 1 < parts.length →
        (parts.getD i "" = "-o" ∨ parts.getD i "" = "-MF") → parts.getD (i + 1) "" ∉ out) ?_
    constructor
    · intro h i h1 h2
      exact h i (by omega) h1 h2
    · intro h i _ h1 h2
      exact h i h1 h2
  exact instDecidableAnd

/-- C4 (counterexample): the trace line `cc -MF -o x src/foo.c -o out.o`
    survives the filters, and resolution returns tokens `cc x` — but `x`
    immediately followed a `-o` token in the input (that `-o` was itself
    consumed as the value of the preceding `-MF`, so it triggered no skip). -/
theorem C4_counterexample :
    find_build_command_line ["cc -MF -o x src/foo.c -o out.o"] "src/foo.c"
        = .ok (["cc", "x"], DEFAULT_AS_CMDLINE) ∧
    shlex_split "cc -MF -o x src/foo.c -o out.o"
        = some ["cc", "-MF", "-o", "x", "src/foo.c", "-o", "out.o"] ∧
    ¬ c4Claim ["cc", "-MF", "-o", "x", "src/foo.c", "-o", "out.o"] ["cc", "x"] "src/foo.c" := by
  refine ⟨by decide, by decide, ?_⟩
  intro h
  exact h.2.2.2 2 (by decide) (by decide) (by decide)

/-- C4 (amended): every compiler token list returned by build-command
    resolution contains no `-o` token, no `-MF` token and no token equal to
    the manifest-relative source path (the token after each `-o`/`-MF` that
    the left-to-right scan treats as a flag — rather than as the value of a
    preceding flag — is likewise dropped), and the generated compile script
    regenerates the output flag after replaying the compiler tokens. -/
theorem C4_amended (debug_output : List String) (rel : String) (out asm : List String)
    (h : find_build_command_line debug_output rel = .ok (out, asm)) :
    "-o" ∉ out ∧ "-MF" ∉ out ∧ rel ∉ out ∧
    ∀ cwd, ∃ p, write_compile_command_content out cwd = p ++ " \"$INPUT\" -o \"$OUTPUT\"\n" := by
  unfold find_build_command_line at h
  have hmain : "-o" ∉ out ∧ "-MF" ∉ out ∧ rel ∉ out := by
    split at h
    · cases h
    · cases h
    · rename_i res asm' close heq
      cases h
      exact resolveLoop_inv rel debug_output [] DEFAULT_AS_CMDLINE false _ heq
        (by intro c hc; cases hc) _ (by simp)
    · cases h
  refine ⟨hmain.1, hmain.2.1, hmain.2.2, fun cwd => ?_⟩
  exact ⟨_, rfl⟩

/-- C4 (witness): the amended invariant applied to the concrete trace
    `cc src/foo.c -o a.o`. -/
theorem C4_amended_witness :
    "-o" ∉ ["cc"] ∧ "-MF" ∉ ["cc"] ∧ "src/foo.c" ∉ ["cc"] := by
  have h := C4_amended ["cc src/foo.c -o a.o"] "src/foo.c" ["cc"] DEFAULT_AS_CMDLINE (by decide)
  exact ⟨h.1, h.2.1, h.2.2.1⟩

/-- C10 (counterexample): a candidate whose wrapper pattern has an EMPTY
    segment between the two separators is not left unchanged: unwrapping
    still occurs (the wrapper and the separators are sliced away) and the
    recovered assembler is the empty list rather than `None`. -/
theorem C10_counterexample :
    fixup_build_command ["cc", "tools/asm_processor.py", "C", "--", "--", "F"] "zz"
        = (["C", "F"], some []) ∧
    stripFlagsAux "zz" ["cc", "tools/asm_processor.py", "C", "--", "--", "F"] 0
        = ["cc", "tools/asm_processor.py", "C", "--", "--", "F"] ∧
    ["C", "F"] ≠ ["cc", "tools/asm_processor.py", "C", "--", "--", "F"] := by
  exact ⟨by decide, by decide, by decide⟩

/-- C10 (amended): when no token references the wrapper, or fewer than two
    `--` separators follow the first wrapper token, `fixup_build_command`
    leaves the token list unchanged apart from flag stripping and reports no
    assembler (`none`), so the resolver keeps the default assembler baseline;
    when the wrapper pattern is complete but the segment between the
    separators is empty, unwrapping still takes place and the recovered
    assembler is the empty list — which the resolver's truthiness test also
    replaces by the default baseline. -/
theorem C10_amended (parts : List String) (ignore : String) :
    ((stripFlagsAux ignore parts 0).findIdx? wrapperTok = none →
        fixup_build_command parts ignore = (stripFlagsAux ignore parts 0, none)) ∧
    (∀ i0, (stripFlagsAux ignore parts 0).findIdx? wrapperTok = some i0 →
        idxOfFrom "--" (stripFlagsAux ignore parts 0) (i0 + 1) = none →
        fixup_build_command parts ignore = (stripFlagsAux ignore parts 0, none)) ∧
    (∀ i0 i1, (stripFlagsAux ignore parts 0).findIdx? wrapperTok = some i0 →
        idxOfFrom "--" (stripFlagsAux ignore parts 0) (i0 + 1) = some i1 →
        idxOfFrom "--" (stripFlagsAux ignore parts 0) (i1 + 1) = none →
        fixup_build_command parts ignore = (stripFlagsAux ignore parts 0, none)) ∧
    (∀ i0 i1, (stripFlagsAux ignore parts 0).findIdx? wrapperTok = some i0 →
        idxOfFrom "--" (stripFlagsAux ignore parts 0) (i0 + 1) = some i1 →
        idxOfFrom "--" (stripFlagsAux ignore parts 0) (i1 + 1) = some (i1 + 1) →
        (fixup_build_command parts ignore).2 = some [] ∧
        chooseAsm DEFAULT_AS_CMDLINE (fixup_build_command parts ignore).2
          = DEFAULT_AS_CMDLINE) := by
  refine ⟨fun h0 => ?_, fun i0 h0 h1 => ?_, fun i0 i1 h0 h1 h2 => ?_, fun i0 i1 h0 h1 h2 => ?_⟩
  · unfold fixup_build_command fixup_unwrap
    rw [h0]
  · unfold fixup_build_command fixup_unwrap
    rw [h0]
    dsimp only
    rw [h1]
  · unfold fixup_build_command fixup_unwrap
    rw [h0]
    dsimp only
    rw [h1]
    dsimp only
    rw [h2]
  · unfold fixup_build_command fixup_unwrap
    rw [h0]
    dsimp only
    rw [h1]
    dsimp only
    rw [h2]
    dsimp only
    simp [chooseAsm]

/-- C10 (witness): the amended theorem applied to a candidate with no wrapper
    token and to a candidate with an empty assembler segment. -/
theorem C10_amended_witness :
    fixup_build_command ["cc", "src.c"] "zz" = (["cc", "src.c"], none) ∧
    (fixup_build_command ["cc", "tools/asm_processor.py", "C", "--", "--", "F"] "zz").2
        = some [] ∧
    chooseAsm DEFAULT_AS_CMDLINE
        (fixup_build_command ["cc", "tools/asm_processor.py", "C", "--", "--", "F"] "zz").2
      = DEFAULT_AS_CMDLINE := by
  refine ⟨?_, ?_, ?_⟩
  · exact (C10_amended ["cc", "src.c"] "zz").1 (by decide)
  · exact ((C10_amended ["cc", "tools/asm_processor.py", "C", "--", "--", "F"] "zz").2.2.2
      1 3 (by decide) (by decide) (by decide)).1
  · exact ((C10_amended ["cc", "tools/asm_processor.py", "C", "--", "--", "F"] "zz").2.2.2
      1 3 (by decide) (by decide) (by decide)).2

/-- Fatal outcomes of `parse_asm` (import.py lines 41-78). -/
inductive AsmErr
  /-- `line.split()[1]` raising `IndexError` on a bare `.section` directive. -/
  | sectionIndexError
  /-- "Missing function name in assembly file!" (lines 67-72). -/
  | missingName
  /-- "Bad function name" (lines 74-76). -/
  | badName
deriving DecidableEq

/-- The bare section-switch lines recognised on import.py lines 50-57. -/
def sectionNames : List String :=
  [".text", ".rdata", ".rodata", ".late_rodata", ".bss", ".data"]

/-- State of `parse_asm`'s scan: the active section (`cur_section`), the
    captured function name (`func_name`) and the accumulated executable-section
    lines (`asm_lines`, without their trailing newlines). -/
structure AsmState where
  cur : String
  fname : Option String
  acc : List String

/-- One iteration of `parse_asm`'s loop (import.py lines 47-62): update the
    active section from a `.section` directive or a bare section name, then —
    if the now-active section is `.text` — capture the first `glabel`
    identifier and accumulate the line.  (`line.split()[1]` on a stripped line
    starting with `"glabel "` always has a second token, so that Python
    indexing cannot fail; the directive case can, hence the error.) -/
def parse_asm_step (st : AsmState) (line : String) : Except AsmErr AsmState :=
  let stripped := pyStrip line
  let curE : Except AsmErr String :=
    if strStartsWith stripped ".section" then
      match (pySplitWs line)[1]? with
      | none => .error .sectionIndexError
      | some s => .ok s
    else if sectionNames.contains stripped then .ok stripped
    else .ok st.cur
  match curE with
  | .error e => .error e
  | .ok cur =>
    if cur = ".text" then
      let fname :=
        if st.fname.isNone && strStartsWith stripped "glabel " then (pySplitWs line)[1]?
        else st.fname
      .ok ⟨cur, fname, st.acc ++ [line]⟩
    else
      .ok ⟨cur, st.fname, st.acc⟩

/-- The whole scan loop of `parse_asm`. -/
def parse_asm_loop : List String → AsmState → Except AsmErr AsmState
  | [], st => .ok st
  | l :: ls, st =>
    match parse_asm_step st l with
    | .error e => .error e
    | .ok st2 => parse_asm_loop ls st2

/-- `re.fullmatch(r"[a-zA-Z0-9_$]+", func_name)` (import.py line 74). -/
def validName (f : String) : Bool :=
  !f.data.isEmpty && f.data.all (fun c => identChar c || c = '$')

/-- `"".join(asm_lines)`: Python file iteration yields each line with its
    trailing newline, so joining the accumulated line bodies re-inserts them. -/
def unlinesNL (ls : List String) : String := String.join (ls.map (· ++ "\n"))

/-- `parse_asm(asm_file)` (import.py lines 41-78) on the file's lines
    (line bodies, without trailing newlines). -/
def parse_asm (lines : List String) : Except AsmErr (String × String) :=
  match parse_asm_loop lines ⟨".text", none, []⟩ with
  | .error e => .error e
  | .ok st =>
    match st.fname with
    | none => .error .missingName
    | some f => if validName f then .ok (f, unlinesNL st.acc) else .error .badName

/-- Claim-side definition, following the spec's wording: the active section
    after a line, "updated at each section directive" and otherwise unchanged. -/
def specUpdate (cur line : String) : String :=
  if strStartsWith (pyStrip line) ".section" then (pySplitWs line).getD 1 cur
  else if sectionNames.contains (pyStrip line) then pyStrip line
  else cur

/-- Claim-side definition: each line paired with the section active at it
    (the section resulting from its own directive, if it is one). -/
def specTag (cur : String) : List String → List (String × String)
  | [] => []
  | l :: ls => (l, specUpdate cur l) :: specTag (specUpdate cur l) ls

/-- Claim-side from an arbitrary starting section: the lines at which the
    active section is the executable one. -/
def specTextFrom (cur : String) (lines : List String) : List String :=
  ((specTag cur lines).filter (fun p => p.2 = ".text")).map (·.1)

/-- Claim-side: the identifier of the first `glabel` line seen while the
    active section is the executable one. -/
def specNameFrom (cur : String) (lines : List String) : Option String :=
  ((specTag cur lines).find? (fun p =>
      p.2 = ".text" && strStartsWith (pyStrip p.1) "glabel ")).bind
    (fun p => (pySplitWs p.1)[1]?)

/-- Claim-side, from the default executable section. -/
def specTextLines (lines : List String) : List String := specTextFrom ".text" lines

/-- Claim-side, from the default executable section. -/
def specFuncName (lines : List String) : Option String := specNameFrom ".text" lines

/-- A well-formed line of an assembly listing: a `.section` directive carries
    an argument, and a `glabel` line carries an identifier (for both, Python's
    `line.split()[1]` would otherwise raise `IndexError`; for `glabel` lines
    the stripped prefix `"glabel "` already guarantees the identifier). -/
def lineWf (l : String) : Bool :=
  (!(strStartsWith (pyStrip l) ".section") || decide (2 ≤ (pySplitWs l).length)) &&
  (!(strStartsWith (pyStrip l) "glabel ") || decide (2 ≤ (pySplitWs l).length))

theorem specTextFrom_cons (cur l : String) (ls : List String) :
    specTextFrom cur (l :: ls) =
      (if specUpdate cur l = ".text" then [l] else []) ++ specTextFrom (specUpdate cur l) ls := by
  simp only [specTextFrom, specTag, List.filter_cons]
  split
  · rename_i h
    rw [if_pos (by simpa using h)]
    simp
  · rename_i h
    rw [if_neg (by simpa using h)]
    simp

theorem specNameFrom_cons (cur l : String) (ls : List String) :
    specNameFrom cur (l :: ls) =
      if specUpdate cur l = ".text" ∧ strStartsWith (pyStrip l) "glabel " = true then
        (pySplitWs l)[1]?
      else specNameFrom (specUpdate cur l) ls := by
  simp only [specNameFrom, specTag, List.find?_cons]
  split
  · rename_i h
    rw [if_pos (by simpa using h)]
    simp
  · rename_i h
    rw [if_neg (by simpa using h)]

theorem fname_or_step (fn r tok : Option String) (g : Bool)
    (htok : g = true → tok.isSome = true) :
    (if (fn.isNone && g) = true then tok else fn).or r
      = fn.or (if g = true then tok else r) := by
  cases fn with
  | some f => simp [Option.or]
  | none =>
    cases g with
    | false => simp [Option.or]
    | true =>
      rcases Option.isSome_iff_exists.mp (htok rfl) with ⟨t, rfl⟩
      simp [Option.or]

theorem parse_asm_step_eq (st : AsmState) (l : String) (hwfl : lineWf l = true) :
    parse_asm_step st l = .ok (if specUpdate st.cur l = ".text"
      then ⟨specUpdate st.cur l,
            (if st.fname.isNone && strStartsWith (pyStrip l) "glabel " then
               (pySplitWs l)[1]? else st.fname),
            st.acc ++ [l]⟩
      else ⟨specUpdate st.cur l, st.fname, st.acc⟩) := by
  by_cases hsec : strStartsWith (pyStrip l) ".section" = true
  · have hlen : 2 ≤ (pySplitWs l).length := by
      simp only [lineWf, hsec, Bool.not_true, Bool.false_or, Bool.and_eq_true,
        decide_eq_true_eq] at hwfl
      exact hwfl.1
    obtain ⟨s, hs⟩ : ∃ s, (pySplitWs l)[1]? = some s :=
      ⟨_, List.getElem?_eq_getElem (by omega)⟩
    have hcur : specUpdate st.cur l = s := by
      simp [specUpdate, hsec, List.getD_eq_getElem?_getD, hs]
    rw [hcur]
    simp only [parse_asm_step, hsec, if_true, hs]
    split <;> rfl
  · have hsec' : strStartsWith (pyStrip l) ".section" = false := by simpa using hsec
    by_cases hmem : sectionNames.contains (pyStrip l) = true
    · have hcur : specUpdate st.cur l = pyStrip l := by
        have hmem' : pyStrip l ∈ sectionNames := by simpa using hmem
        simp [specUpdate, hsec', hmem']
      rw [hcur]
      simp only [parse_asm_step, hsec', Bool.false_eq_true, if_false, hmem, if_true]
      split <;> rfl
    · have hmem' : sectionNames.contains (pyStrip l) = false := by simpa using hmem
      have hcur : specUpdate st.cur l = st.cur := by
        have hmem2 : pyStrip l ∉ sectionNames := by simpa using hmem
        simp [specUpdate, hsec', hmem2]
      rw [hcur]
      simp only [parse_asm_step, hsec', Bool.false_eq_true, if_false, hmem', if_true]
      split <;> rfl

theorem parse_asm_loop_spec :
    ∀ (lines : List String) (cur : String) (fn : Option String) (acc : List String),
      (∀ l ∈ lines, lineWf l = true) →
      parse_asm_loop lines ⟨cur, fn, acc⟩ =
        .ok ⟨lines.foldl specUpdate cur,
             fn.or (specNameFrom cur lines),
             acc ++ specTextFrom cur lines⟩ := by
  intro lines
  induction lines with
  | nil =>
    intro cur fn acc _
    simp [parse_asm_loop, specNameFrom, specTag, specTextFrom]
  | cons l ls ih =>
    intro cur fn acc hwf
    have hl := hwf l (by simp)
    have hls : ∀ x ∈ ls, lineWf x = true := fun x hx => hwf x (by simp [hx])
    have htok : strStartsWith (pyStrip l) "glabel " = true →
        ((pySplitWs l)[1]?).isSome = true := by
      intro hgl
      have hlen : 2 ≤ (pySplitWs l).length := by
        simp only [lineWf, hgl, Bool.not_true, Bool.false_or, Bool.and_eq_true,
          decide_eq_true_eq] at hl
        exact hl.2
      rw [List.getElem?_eq_getElem (show 1 < (pySplitWs l).length by omega)]
      rfl
    simp only [parse_asm_loop]
    rw [parse_asm_step_eq ⟨cur, fn, acc⟩ l hl]
    dsimp only
    by_cases hst : specUpdate cur l = ".text"
    · rw [if_pos hst, ih _ _ _ hls]
      congr 1
      congr 1
      · rw [specNameFrom_cons]
        rw [fname_or_step fn (specNameFrom (specUpdate cur l) ls) _ _ htok]
        congr 1
        by_cases hgl : strStartsWith (pyStrip l) "glabel " = true
        · rw [if_pos hgl, if_pos ⟨hst, hgl⟩]
        · rw [if_neg hgl, if_neg (by intro hc; exact hgl hc.2)]
      · rw [specTextFrom_cons, if_pos hst, List.append_assoc]
    · rw [if_neg hst, ih _ _ _ hls]
      congr 1
      congr 1
      · rw [specNameFrom_cons, if_neg (by intro hc; exact hst hc.1)]
      · rw [specTextFrom_cons, if_neg hst, List.nil_append]

/-- C5: for every well-formed assembly listing whose first executable-section
    `glabel` line carries identifier `f` (in particular one whose executable
    section holds exactly one function introduced by a line starting
    `glabel f`) with `f` a valid name, `parse_asm` returns the name `f` —
    taken from the first `glabel` line seen while the active section is the
    executable one, the active section defaulting to `.text` and updated at
    each section directive — and text consisting exactly of the lines
    accumulated while the active section was the executable section. -/
theorem C5_parse_asm (lines : List String) (f : String)
    (hwf : ∀ l ∈ lines, lineWf l = true)
    (hname : specFuncName lines = some f)
    (hvalid : validName f = true) :
    parse_asm lines = .ok (f, unlinesNL (specTextLines lines)) := by
  unfold parse_asm
  rw [parse_asm_loop_spec lines ".text" none [] hwf]
  have hor : (none : Option String).or (specNameFrom ".text" lines) = some f := by
    rw [Option.none_or]
    exact hname
  dsimp only
  rw [hor]
  dsimp only
  rw [if_pos hvalid]
  rfl

/-- C5 (witness): a concrete listing with one function `foo` in the
    executable section followed by a data section. -/
theorem C5_witness :
    parse_asm ["glabel foo", " nop", ".section .data", "x: .word 1"]
      = .ok ("foo", "glabel foo\n nop\n") := by
  have h := C5_parse_asm ["glabel foo", " nop", ".section .data", "x: .word 1"] "foo"
    (by decide) (by decide) (by decide)
  rw [h]
  decide

/-! The macro-preserving preprocessing pipeline (`preprocess_c_with_macros`,
    import.py lines 202-285).  The two external `cpp` invocations are
    modelled as parameters: `source1` is the output of the directives-only
    pass, and `cpp2` maps the rewritten text to the second pass's output. -/

/-- Split a character list at every newline (keeping empty segments, like
    `str.split("\n")`); `cur` holds the current segment reversed. -/
def splitNlAux : List Char → List Char → List (List Char)
  | [], cur => [cur.reverse]
  | c :: cs, cur =>
    if c = '\n' then cur.reverse :: splitNlAux cs [] else splitNlAux cs (c :: cur)

/-- `str.splitlines()` for newline-separated text: split on the newline
    character, except that a trailing newline yields no final empty line. -/
def pySplitlines (s : String) : List String :=
  let p := (splitNlAux s.data []).map String.mk
  if p.getLast? = some "" then p.dropLast else p

/-- The column-zero call-syntax matcher `^([a-zA-Z0-9_]+)\(` applied to one
    line: the maximal leading identifier run when it is non-empty and
    immediately followed by an opening parenthesis. -/
def lineCallAtCol0 (l : String) : Option String :=
  let name := l.data.takeWhile identChar
  match l.data.drop name.length with
  | '(' :: _ => if name.isEmpty then none else some (String.mk name)
  | _ => none

/-- `expand_macros` (import.py lines 214-216): the names invoked with call
    syntax at column zero anywhere in the directives-only output.  Python
    collects them in a set; a list with the same membership serves here. -/
def expand_macros (src : String) : List String :=
  (pySplitlines src).filterMap lineCallAtCol0

/-- Parse `#define NAME(rest` (the regex `^#define ([a-zA-Z0-9_]+)\(`),
    returning the name and everything after the opening parenthesis. -/
def parseDefineFn (l : String) : Option (String × String) :=
  if ("#define ".data).isPrefixOf l.data then
    let rest := l.data.drop 8
    let name := rest.takeWhile identChar
    match rest.drop name.length with
    | '(' :: after =>
      if name.isEmpty then none else some (String.mk name, String.mk after)
    | _ => none
  else none

/-- The `re.sub` replacement of import.py lines 221-228: a function-like
    definition whose name is in the expand set is left untouched (the
    replacement text equals the matched text); any other one is rewritten to
    the `_permuter define` sentinel, keeping name and remainder verbatim. -/
def rewriteLine (E : List String) (l : String) : String :=
  match parseDefineFn l with
  | some (n, rest) =>
    if E.contains n then l else "_permuter define " ++ n ++ "(" ++ rest
  | none => l

/-- Line 232 of import.py: drop auto-inserted `#define __STDC_...` lines (the
    regex consumes the line's newline; cpp output ends in a newline, so every
    such line is removed). -/
def removeStdc (ls : List String) : List String :=
  ls.filter (fun l => !(strStartsWith l "#define __STDC_"))

/-- The rewritten lines handed to the second preprocessor pass: every line of
    the directives-only output run through the sentinel rewrite, then the
    standard-conformance definitions removed. -/
def rewrittenLines (src1 : String) : List String :=
  removeStdc ((pySplitlines src1).map (rewriteLine (expand_macros src1)))

/-- The corresponding text (the second pass receives it on standard input). -/
def rewrittenSource (src1 : String) : String := unlinesNL (rewrittenLines src1)

/-- Fatal Python exceptions possible while recovering sentinel lines
    (import.py lines 248-252). -/
inductive PpErr
  /-- `before, after = line.split("(", 1)` with no parenthesis on the line. -/
  | unpackValueError
  /-- `before.split()[2]` with fewer than three whitespace tokens. -/
  | recoverIndexError
deriving DecidableEq

/-- `line.split(sep, 1)` for a one-character separator: split at its first
    occurrence only; `none` when the separator does not occur. -/
def splitOnceL (t : Char) : List Char → Option (List Char × List Char)
  | [] => none
  | c :: cs =>
    if c = t then some ([], cs)
    else (splitOnceL t cs).map (fun p => (c :: p.1, p.2))

/-- Recover `(name, after)` from a `_permuter define name(after` line
    (import.py lines 250-252). -/
def recoverPair (l : String) : Except PpErr (String × String) :=
  match splitOnceL '(' l.data with
  | none => .error .unpackValueError
  | some (before, after) =>
    match (splitWsL before)[2]? with
    | none => .error .recoverIndexError
    | some nm => .ok (String.mk nm, String.mk after)

/-- All `identifier(` call occurrences of a line (`reg_calls.finditer`,
    import.py lines 247 and 256-258): the maximal identifier runs immediately
    followed by an opening parenthesis.  The fuel starts at the line's length,
    which suffices since each step consumes at least one character. -/
def findCallsAux : Nat → List Char → List (List Char)
  | 0, _ => []
  | _ + 1, [] => []
  | f + 1, c :: cs =>
    if identChar c then
      match cs.dropWhile identChar with
      | '(' :: r2 => (c :: cs.takeWhile identChar) :: findCallsAux f ('(' :: r2)
      | _ => findCallsAux f (cs.dropWhile identChar)
    else findCallsAux f cs

/-- Call occurrences of a line, as strings. -/
def findCalls (l : String) : List String := (findCallsAux l.data.length l.data).map String.mk

/-- Look up a context's outgoing edges.  Python's `defaultdict(list)` keyed by
    context holds the same edges grouped by source; filtering the global edge
    list in order recovers each group exactly as Python appended it. -/
def lookupG (g : List (String × String)) (n : String) : List String :=
  (g.filter (fun e => e.1 = n)).map (·.2)

/-- One pass over the second preprocessor output (import.py lines 244-258):
    split lines into late definitions and kept code lines, and record the
    call edges of every line under its context (`""` for ordinary code, the
    recovered macro name for a sentinel line). -/
def scanAux : List String →
    List (String × String) × List String × List (String × String) →
    Except PpErr (List (String × String) × List String × List (String × String))
  | [], st => .ok st
  | l :: ls, (late, keep, g) =>
    if strStartsWith l "_permuter define " then
      match recoverPair l with
      | .error e => .error e
      | .ok (n, a) =>
        scanAux ls (late ++ [(n, a)], keep, g ++ (findCalls l).map (fun m => (n, m)))
    else
      scanAux ls (late, keep ++ [l], g ++ (findCalls l).map (fun m => ("", m)))

/-- The recovery-and-graph pass over the second preprocessor output. -/
def scanSource2 (ls : List String) :
    Except PpErr (List (String × String) × List String × List (String × String)) :=
  scanAux ls ([], [], [])

/-- The worklist loop of import.py lines 260-268.  Python pops from the end
    of its list (a stack), so pushed successors appear reversed here; the
    resulting membership is identical.  Each iteration pops one element, and
    at most `1 + (number of edges)` elements are ever pushed, so fuel
    `edges + 2` always lets the loop run until the stack is empty. -/
def bfsAux (g : List (String × String)) : Nat → List String → List String → List String
  | 0, _, used => used
  | _ + 1, [], used => used
  | f + 1, n :: stack, used =>
    if used.contains n then bfsAux g f stack used
    else bfsAux g f ((lookupG g n).reverse ++ stack) (n :: used)

/-- `used_anywhere` (import.py lines 261-268): the names reachable from the
    root context `""` in the textual call graph. -/
def used_anywhere (g : List (String × String)) : List String :=
  bfsAux g (g.length + 2) [""] []

/-- The deferred block: one `#pragma _permuter define` line per late
    definition whose name is reachable from the root (import.py lines
    271-276). -/
def deferredPragmas (late : List (String × String)) (g : List (String × String)) :
    List String :=
  (late.filter (fun p => (used_anywhere g).contains p.1)).map
    (fun p => "#pragma _permuter define " ++ p.1 ++ "(" ++ p.2)

/-- The forward declarations `int name();`, one per late definition whose
    name is an immediate successor of the root — Python's `used_by_nonmacro`
    set, `set(graph[""])` (import.py lines 262 and 277-281). -/
def lateDecls (late : List (String × String)) (g : List (String × String)) : List String :=
  (late.filter (fun p => (lookupG g "").contains p.1)).map
    (fun p => "int " ++ p.1 ++ "();")

/-- `preprocess_c_with_macros(cpp_command, cwd)` (import.py lines 202-285),
    with the external passes as parameters: `source1` is the directives-only
    output, `cpp2` the second pass. -/
def preprocess_c_with_macros (source1 : String) (cpp2 : String → String) :
    Except PpErr String :=
  match scanSource2 (pySplitlines (cpp2 (rewrittenSource source1))) with
  | .error e => .error e
  | .ok (late, keep, g) =>
    .ok (String.intercalate "\n"
      (["#pragma _permuter latedefine start"] ++ deferredPragmas late g ++
       lateDecls late g ++ ["#pragma _permuter latedefine end"] ++ keep ++ [""]))

/-- The flag-selection loop of `import_c_file` (import.py lines 293-308):
    keep `-D`/`-U`/`-I` (with the following token when the flag stands alone)
    and `-nostdinc` from the recovered compiler invocation. -/
def extractCppFlags : List String → Nat → List String
  | [], _ => []
  | a :: rest, k + 1 => a :: extractCppFlags rest k
  | a :: rest, 0 =>
    if a = "-D" || a = "-U" || a = "-I" then a :: extractCppFlags rest 1
    else if strStartsWith a "-D" || strStartsWith a "-U" || strStartsWith a "-I" ||
        a = "-nostdinc" then
      a :: extractCppFlags rest 0
    else extractCppFlags rest 0

/-- The preprocessor command built by `import_c_file` (import.py lines
    289-308). -/
def build_cpp_command (in_file : String) (compiler : List String) : List String :=
  CPP ++ [in_file, "-D__sgi", "-D_LANGUAGE_C", "-DNON_MATCHING"] ++ extractCppFlags compiler 0

/-- `import_c_file(compiler, cwd, in_file, preserve_macros)` (import.py lines
    288-316), with the external preprocessor modelled by `cpp1` (mapping the
    invoked command line to its output) and the second pass by `cpp2`. -/
def import_c_file (cpp1 : List String → String) (cpp2 : String → String)
    (compiler : List String) (in_file : String) (preserve : Bool) : Except PpErr String :=
  if preserve then
    preprocess_c_with_macros
      (cpp1 (build_cpp_command in_file compiler ++ ["-dD", "-fdirectives-only"])) cpp2
  else
    .ok (cpp1 (build_cpp_command in_file compiler ++ STUB_FN_MACROS))

/-! Helper lemmas for the sentinel rewrite and its recovery. -/

theorem takeWhile_all_append (p : Char → Bool) (l : List Char) (c : Char) (r : List Char)
    (hl : ∀ a ∈ l, p a = true) (hc : p c = false) :
    (l ++ c :: r).takeWhile p = l := by
  induction l with
  | nil => simp [List.takeWhile_cons, hc]
  | cons a as ih =>
    rw [List.cons_append, List.takeWhile_cons, if_pos (hl a (by simp)),
      ih (fun x hx => hl x (by simp [hx]))]

theorem splitOnceL_append (t : Char) (l r : List Char) (hl : t ∉ l) :
    splitOnceL t (l ++ t :: r) = some (l, r) := by
  induction l with
  | nil => simp [splitOnceL]
  | cons a as ih =>
    have ha : ¬ a = t := fun h => hl (by simp [h])
    simp [splitOnceL, ha, ih (fun h => hl (by simp [h]))]

theorem splitWsAux_token (a : List Char) (ha : ∀ c ∈ a, pyIsSpace c = false) :
    ∀ (rest cur : List Char), splitWsAux (a ++ rest) cur = splitWsAux rest (a.reverse ++ cur) := by
  induction a with
  | nil => intro rest cur; simp
  | cons c cs ih =>
    intro rest cur
    rw [List.cons_append, show splitWsAux (c :: (cs ++ rest)) cur
        = splitWsAux (cs ++ rest) (c :: cur) from by
          simp [splitWsAux, ha c (by simp)]]
    rw [ih (fun x hx => ha x (by simp [hx])) rest (c :: cur)]
    congr 1
    simp

theorem splitWsAux_space (c : Char) (hc : pyIsSpace c = true) (l cur : List Char)
    (hcur : cur.isEmpty = false) :
    splitWsAux (c :: l) cur = cur.reverse :: splitWsAux l [] := by
  simp [splitWsAux, hc, hcur]

theorem identChar_not_space (c : Char) (h : identChar c = true) : pyIsSpace c = false := by
  by_contra hc
  have hc' : pyIsSpace c = true := by simpa using hc
  simp only [pyIsSpace, Bool.or_eq_true, decide_eq_true_eq] at hc'
  rcases hc' with ((((h1 | h1) | h1) | h1) | h1) | h1 <;> subst h1 <;>
    exact absurd h (by decide)

theorem splitWsL_sentinel (w : List Char) (hw1 : w ≠ [])
    (hw2 : ∀ c ∈ w, pyIsSpace c = false) :
    splitWsL ("_permuter define ".data ++ w) = ["_permuter".data, "define".data, w] := by
  have h1 : ("_permuter define ".data ++ w)
      = "_permuter".data ++ (' ' :: ("define".data ++ (' ' :: w))) := rfl
  rw [splitWsL, h1, splitWsAux_token "_permuter".data (by decide)]
  rw [List.append_nil]
  rw [splitWsAux_space ' ' (by decide) _ _ (by decide)]
  rw [List.reverse_reverse]
  rw [splitWsAux_token "define".data (by decide)]
  rw [List.append_nil]
  rw [splitWsAux_space ' ' (by decide) _ _ (by decide)]
  rw [List.reverse_reverse]
  rw [show w = w ++ [] from by simp, splitWsAux_token w hw2, List.append_nil,
    List.append_nil]
  have hrev : w.reverse.isEmpty = false := by
    cases hw : w.reverse with
    | nil => exact absurd (by simpa using hw) hw1
    | cons x xs => rfl
  rw [show splitWsAux [] w.reverse = [w.reverse.reverse] from by
    simp [splitWsAux, hrev]]
  rw [List.reverse_reverse]

theorem recoverPair_sentinel (m r : String) (hm1 : m.data ≠ [])
    (hm2 : ∀ c ∈ m.data, identChar c = true) :
    recoverPair ("_permuter define " ++ m ++ "(" ++ r) = .ok (m, r) := by
  have hdata : ("_permuter define " ++ m ++ "(" ++ r).data
      = ("_permuter define ".data ++ m.data) ++ '(' :: r.data := by
    show ("_permuter define ".data ++ m.data) ++ "(".data ++ r.data = _
    simp
  have hnp : '(' ∉ "_permuter define ".data ++ m.data := by
    intro hmem
    rcases List.mem_append.mp hmem with h | h
    · exact absurd h (by decide)
    · exact absurd (hm2 _ h) (by decide)
  unfold recoverPair
  rw [hdata, splitOnceL_append '(' _ _ hnp]
  have hsp : ∀ c ∈ m.data, pyIsSpace c = false := fun c hc => identChar_not_space c (hm2 c hc)
  dsimp only
  rw [show (splitWsL ("_permuter define ".data ++ m.data))
      = ["_permuter".data, "define".data, m.data] from splitWsL_sentinel m.data hm1 hsp]
  rfl

theorem parseDefineFn_define (m r : String) (hm1 : m.data ≠ [])
    (hm2 : ∀ c ∈ m.data, identChar c = true) :
    parseDefineFn ("#define " ++ m ++ "(" ++ r) = some (m, r) := by
  have hdata : ("#define " ++ m ++ "(" ++ r).data
      = "#define ".data ++ (m.data ++ '(' :: r.data) := by
    show ("#define ".data ++ m.data) ++ "(".data ++ r.data = _
    simp
  unfold parseDefineFn
  rw [hdata]
  rw [if_pos (by rw [List.isPrefixOf_iff_prefix]; exact List.prefix_append _ _)]
  rw [drop_pre_append _ _ 8 (by decide)]
  dsimp only
  rw [takeWhile_all_append identChar m.data '(' r.data hm2 (by decide)]
  rw [drop_pre_append _ _ m.data.length rfl]
  have hne : m.data.isEmpty = false := by
    cases hm : m.data with
    | nil => exact absurd hm hm1
    | cons x xs => rfl
  simp [hne]

theorem parseDefineFn_name_ident (l : String) (m r : String)
    (h : parseDefineFn l = some (m, r)) :
    m.data ≠ [] ∧ ∀ c ∈ m.data, identChar c = true := by
  unfold parseDefineFn at h
  split at h
  · dsimp only at h
    split at h
    · split at h
      · cases h
      · rename_i hne
        simp only [Option.some.injEq, Prod.mk.injEq] at h
        obtain ⟨h1, h2⟩ := h
        constructor
        · rw [← h1]
          intro hz
          rw [show ((l.data.drop 8).takeWhile identChar) = [] from hz] at hne
          simp at hne
        · intro c hc
          rw [← h1] at hc
          exact List.mem_takeWhile_imp (by simpa using hc)
    · cases h
  · cases h

/-- C8: sentinel round-trip — for every deferral-candidate definition line
    `#define NAME(rest` at column zero (NAME a non-empty identifier not in
    the expand set), the sentinel rewrite produces
    `_permuter define NAME(rest`, a line the preprocessor does not recognise
    as a definition (it no longer starts with the `#` directive marker), and
    recovery parses that rewritten line back into exactly `(NAME, rest)`. -/
theorem C8_roundtrip (E : List String) (name rest : String)
    (h1 : name.data ≠ [])
    (h2 : ∀ c ∈ name.data, identChar c = true)
    (h3 : E.contains name = false) :
    rewriteLine E ("#define " ++ name ++ "(" ++ rest)
        = "_permuter define " ++ name ++ "(" ++ rest ∧
    strStartsWith ("_permuter define " ++ name ++ "(" ++ rest) "#" = false ∧
    recoverPair ("_permuter define " ++ name ++ "(" ++ rest) = .ok (name, rest) := by
  refine ⟨?_, rfl, recoverPair_sentinel name rest h1 h2⟩
  unfold rewriteLine
  rw [parseDefineFn_define name rest h1 h2]
  dsimp only
  rw [if_neg (fun hc => Bool.false_ne_true (h3 ▸ hc))]

/-- C8 (witness): the round-trip at the concrete definition
    `#define ADD(a, b) ((a) + (b))`. -/
theorem C8_witness :
    rewriteLine [] ("#define " ++ "ADD" ++ "(" ++ "a, b) ((a) + (b))")
        = "_permuter define " ++ "ADD" ++ "(" ++ "a, b) ((a) + (b))" ∧
    strStartsWith ("_permuter define " ++ "ADD" ++ "(" ++ "a, b) ((a) + (b))") "#" = false ∧
    recoverPair ("_permuter define " ++ "ADD" ++ "(" ++ "a, b) ((a) + (b))")
        = .ok ("ADD", "a, b) ((a) + (b))") :=
  C8_roundtrip [] "ADD" "a, b) ((a) + (b))" (by decide) (by decide) (by decide)

theorem scanAux_late_mem :
    ∀ (ls : List String) (st : List (String × String) × List String × List (String × String))
      (res : List (String × String) × List String × List (String × String)),
      scanAux ls st = .ok res →
      ∀ p ∈ res.1, p ∈ st.1 ∨ ∃ l ∈ ls, strStartsWith l "_permuter define " = true ∧
        recoverPair l = .ok p := by
  intro ls
  induction ls with
  | nil =>
    intro st res h p hp
    cases h
    exact Or.inl hp
  | cons l ls ih =>
    intro st res h p hp
    obtain ⟨late, keep, g⟩ := st
    simp only [scanAux] at h
    split at h
    · rename_i hsent
      split at h
      · cases h
      · rename_i n a hrec
        rcases ih _ _ h p hp with hin | ⟨l', hl', hs', hr'⟩
        · rcases List.mem_append.mp hin with h1 | h1
          · exact Or.inl h1
          · rcases List.mem_singleton.mp h1 with rfl
            exact Or.inr ⟨l, by simp, hsent, hrec⟩
        · exact Or.inr ⟨l', by simp [hl'], hs', hr'⟩
    · rcases ih _ _ h p hp with hin | ⟨l', hl', hs', hr'⟩
      · exact Or.inl hin
      · exact Or.inr ⟨l', by simp [hl'], hs', hr'⟩

theorem rewrittenLines_mem (src1 : String) (l : String) (h : l ∈ rewrittenLines src1) :
    ∃ l0 ∈ pySplitlines src1, l = rewriteLine (expand_macros src1) l0 := by
  unfold rewrittenLines removeStdc at h
  have h2 := List.mem_of_mem_filter h
  rcases List.mem_map.mp h2 with ⟨l0, hl0, rfl⟩
  exact ⟨l0, hl0, rfl⟩

/-- C6: in the macro-preserving pipeline, a function-like macro whose name is
    invoked with call syntax at column zero anywhere in the directives-only
    output is classified into the expand set: every `#define name(` line is
    left untouched by the sentinel rewrite (a real `#define` for the second
    pass), and — provided the second pass only passes sentinel lines through
    (`h2`) and the original output contains no sentinel-shaped lines (`h3`) —
    the name never appears among the recovered late definitions, hence not in
    the deferred block. -/
theorem C6_expand_set (source1 : String) (cpp2 : String → String) (name : String)
    (h1 : name ∈ expand_macros source1)
    (h2 : ∀ l ∈ pySplitlines (cpp2 (rewrittenSource source1)),
        strStartsWith l "_permuter define " = true → l ∈ rewrittenLines source1)
    (h3 : ∀ l ∈ pySplitlines source1, strStartsWith l "_permuter define " = false) :
    (∀ l ∈ pySplitlines source1, ∀ rest, parseDefineFn l = some (name, rest) →
        rewriteLine (expand_macros source1) l = l) ∧
    (∀ late keep g,
        scanSource2 (pySplitlines (cpp2 (rewrittenSource source1))) = .ok (late, keep, g) →
        (∀ a, (name, a) ∉ late) ∧
        (∀ a, (name, a) ∉ late.filter (fun p => (used_anywhere g).contains p.1))) := by
  constructor
  · intro l _ rest hp
    unfold rewriteLine
    rw [hp]
    dsimp only
    rw [if_pos (by simpa using h1)]
  · intro late keep g hscan
    have hmain : ∀ a, (name, a) ∉ late := by
      intro a ha
      rcases scanAux_late_mem _ _ _ hscan (name, a) ha with h0 | ⟨l, hl, hsent, hrec⟩
      · cases h0
      · have hlr := h2 l hl hsent
        rcases rewrittenLines_mem _ _ hlr with ⟨l0, hl0, heq⟩
        cases hp : parseDefineFn l0 with
        | none =>
          unfold rewriteLine at heq
          rw [hp] at heq
          dsimp only at heq
          rw [heq] at hsent
          exact Bool.false_ne_true ((h3 l0 hl0).symm.trans hsent)
        | some pr =>
          obtain ⟨m, r⟩ := pr
          have hmr := parseDefineFn_name_ident l0 m r hp
          unfold rewriteLine at heq
          rw [hp] at heq
          dsimp only at heq
          by_cases hc : (expand_macros source1).contains m = true
          · rw [if_pos hc] at heq
            rw [heq] at hsent
            exact Bool.false_ne_true ((h3 l0 hl0).symm.trans hsent)
          · have hc' : (expand_macros source1).contains m = false := by simpa using hc
            rw [if_neg (fun hcc => Bool.false_ne_true (hc' ▸ hcc))] at heq
            have hrec2 := recoverPair_sentinel m r hmr.1 hmr.2
            rw [← heq] at hrec2
            have h4 := Except.ok.inj (hrec2.symm.trans hrec)
            have h5 : m = name := congrArg Prod.fst h4
            subst h5
            have h6 : (expand_macros source1).contains m = true := by simpa using h1
            exact Bool.false_ne_true (hc'.symm.trans h6)
    exact ⟨hmain, fun a ha => hmain a (List.mem_of_mem_filter ha)⟩

theorem bfsAux_sound (g : List (String × String)) :
    ∀ (f : Nat) (stack used : List String),
      (∀ s ∈ stack, Relation.ReflTransGen (fun x y => (x, y) ∈ g) "" s) →
      (∀ u ∈ used, Relation.ReflTransGen (fun x y => (x, y) ∈ g) "" u) →
      ∀ x ∈ bfsAux g f stack used, Relation.ReflTransGen (fun x y => (x, y) ∈ g) "" x := by
  intro f
  induction f with
  | zero =>
    intro stack used _ hu x hx
    exact hu x hx
  | succ f ih =>
    intro stack used hs hu x hx
    cases stack with
    | nil => exact hu x hx
    | cons n rest =>
      simp only [bfsAux] at hx
      split at hx
      · exact ih rest used (fun s h => hs s (by simp [h])) hu x hx
      · refine ih _ _ ?_ ?_ x hx
        · intro s h
          rcases List.mem_append.mp h with h1 | h1
          · have h2 : s ∈ lookupG g n := by simpa using h1
            have hedge : (n, s) ∈ g := by
              unfold lookupG at h2
              rcases List.mem_map.mp h2 with ⟨e, he, hmap⟩
              have hfil := List.mem_filter.mp he
              have h1' : e.1 = n := by simpa using hfil.2
              have he2 : e = (n, s) := by
                rcases e with ⟨a, b⟩
                simp only at h1' hmap
                rw [h1', hmap]
              rw [← he2]
              exact hfil.1
            exact Relation.ReflTransGen.tail (hs n (by simp)) hedge
          · exact hs s (by simp [h1])
        · intro u hu2
          rcases List.mem_cons.mp hu2 with rfl | h1
          · exact hs u (by simp)
          · exact hu u h1

/-- C7: given the recovery pass's output `(late, keep, g)`, (a) every late
    definition surviving the pruning filter has a name transitively reachable
    from the root context `""` in the textual call graph — contrapositively, a
    late definition whose name is not reachable (in particular one defined but
    never invoked) is omitted from the emitted deferred block — and (b) a
    forward declaration `int name();` is emitted exactly for those late
    definitions whose names are immediate successors of the root. -/
theorem C7_reachability (source1 : String) (cpp2 : String → String)
    (late : List (String × String)) (keep : List String) (g : List (String × String))
    (hscan : scanSource2 (pySplitlines (cpp2 (rewrittenSource source1))) = .ok (late, keep, g)) :
    (∀ n a, (n, a) ∈ late.filter (fun p => (used_anywhere g).contains p.1) →
        Relation.ReflTransGen (fun x y => (x, y) ∈ g) "" n) ∧
    (∀ n, ("int " ++ n ++ "();") ∈ lateDecls late g ↔
        ∃ a, (n, a) ∈ late ∧ n ∈ lookupG g "") := by
  constructor
  · intro n a hmem
    have h2 := (List.mem_filter.mp hmem).2
    have h3 : n ∈ used_anywhere g := by simpa using h2
    refine bfsAux_sound g (g.length + 2) [""] [] ?_ ?_ n h3
    · intro s hs
      rcases List.mem_singleton.mp hs with rfl
      exact Relation.ReflTransGen.refl
    · intro u hu
      cases hu
  · intro n
    constructor
    · intro hmem
      unfold lateDecls at hmem
      rcases List.mem_map.mp hmem with ⟨p, hp, hfmt⟩
      have hfil := List.mem_filter.mp hp
      have hd : ("int ".data ++ p.1.data) ++ "();".data
          = ("int ".data ++ n.data) ++ "();".data := congrArg String.data hfmt
      have hd2 := List.append_cancel_left (List.append_cancel_right hd)
      have hn : p.1 = n := congrArg String.mk hd2
      rcases p with ⟨pn, pa⟩
      cases hn
      exact ⟨pa, hfil.1, by simpa using hfil.2⟩
    · rintro ⟨a, hin, hsucc⟩
      unfold lateDecls
      refine List.mem_map.mpr ⟨(n, a), ?_, rfl⟩
      exact List.mem_filter.mpr ⟨hin, by simpa using hsucc⟩

/-- A toy second preprocessor pass used by the concrete witnesses: it
    consumes `#define` directives and passes everything else through. -/
def exampleCpp2 (s : String) : String :=
  unlinesNL ((pySplitlines s).filter (fun l => !(strStartsWith l "#define")))

/-- The directives-only output used by the concrete witnesses: one macro
    invoked at column zero, one invoked from code, one never invoked. -/
def exampleSrc1 : String :=
  "FOO(1)\n#define FOO(x) x\n#define BAR(y) y\n#define BAZ(z) z\nx = BAR(2);\n"

/-- C6 (witness): in the concrete pipeline run, `FOO` — invoked at column
    zero — keeps its real `#define` and is absent from the recovered late
    definitions. -/
theorem C6_witness :
    rewriteLine (expand_macros exampleSrc1) "#define FOO(x) x" = "#define FOO(x) x" ∧
    ("FOO", "x) x") ∉ ([("BAR", "y) y"), ("BAZ", "z) z")] : List (String × String)) := by
  have h := C6_expand_set exampleSrc1 exampleCpp2 "FOO" (by decide) (by decide) (by decide)
  refine ⟨h.1 "#define FOO(x) x" (by decide) "x) x" (by decide), ?_⟩
  exact (h.2 [("BAR", "y) y"), ("BAZ", "z) z")] ["FOO(1)", "x = BAR(2);"]
    [("", "FOO"), ("BAR", "BAR"), ("BAZ", "BAZ"), ("", "BAR")] (by decide)).1 "x) x"

/-- C7 (witness): in the concrete pipeline run, the directly-used late
    definition `BAR` receives a forward declaration. -/
theorem C7_witness :
    ("int " ++ "BAR" ++ "();") ∈ lateDecls [("BAR", "y) y"), ("BAZ", "z) z")]
        [("", "FOO"), ("BAR", "BAR"), ("BAZ", "BAZ"), ("", "BAR")] := by
  have h := (C7_reachability exampleSrc1 exampleCpp2
    [("BAR", "y) y"), ("BAZ", "z) z")] ["FOO(1)", "x = BAR(2);"]
    [("", "FOO"), ("BAR", "BAR"), ("BAZ", "BAZ"), ("", "BAR")] (by decide)).2 "BAR"
  exact h.mpr ⟨"y) y", by decide, by decide⟩

/-- C9: resolution and preprocessing are deterministic — two runs in which
    the build trace, the manifest-relative path, the compiler invocation, the
    input file, the mode and the outputs of the external preprocessor passes
    coincide produce byte-identical results from `find_build_command_line`
    and `import_c_file`. -/
theorem C9_determinism (t1 t2 : List String) (rel1 rel2 : String)
    (cppA cppB : List String → String) (cpp2A cpp2B : String → String)
    (comp1 comp2 : List String) (f1 f2 : String) (pm1 pm2 : Bool)
    (ht : t1 = t2) (hrel : rel1 = rel2) (hcpp : cppA = cppB) (hcpp2 : cpp2A = cpp2B)
    (hcomp : comp1 = comp2) (hf : f1 = f2) (hpm : pm1 = pm2) :
    find_build_command_line t1 rel1 = find_build_command_line t2 rel2 ∧
    import_c_file cppA cpp2A comp1 f1 pm1 = import_c_file cppB cpp2B comp2 f2 pm2 := by
  subst ht hrel hcpp hcpp2 hcomp hf hpm
  exact ⟨rfl, rfl⟩

/-- C9 (witness): determinism at a concrete trace and a concrete
    macro-preserving import. -/
theorem C9_witness :
    find_build_command_line ["cc src/foo.c -o a.o"] "src/foo.c"
        = find_build_command_line ["cc src/foo.c -o a.o"] "src/foo.c" ∧
    import_c_file (fun _ => exampleSrc1) exampleCpp2 ["cc"] "src/foo.c" true
        = import_c_file (fun _ => exampleSrc1) exampleCpp2 ["cc"] "src/foo.c" true :=
  C9_determinism _ _ _ _ _ _ _ _ _ _ _ _ _ _ rfl rfl rfl rfl rfl rfl rfl
